import Mathlib

/-!
Shallow embedding of the core of the Folder Forensics system (`src/app.py`):
the snapshot-and-diff engine. Pure functions of the source are translated
directly; interactions with the operating system (path existence, directory
walking, `stat`, time formatting) are supplied through an explicit
environment value, and persistent storage is explicit state passing.
-/

namespace FolderForensics

/-- The dictionary produced by `get_file_info` in `src/app.py`. Optional
fields model Python keys whose value may be `None` or absent: `o.get(k)`
yields `None` both for a missing key and for a stored `None`, so one
`Option` covers both. -/
structure FileRecord where
  name : String
  relpath : String
  size : Option String
  created : Option String
  modified : Option String
  accessed : Option String
  is_file : Bool
  error : Option String
deriving Repr, DecidableEq

/-- A Python dict with string keys, as an association list. A genuine dict
never has duplicate keys; insertions go through `dictInsert` below, which
preserves that. -/
abbrev Dict (β : Type) := List (String × β)

/-- The keys of a dict, in insertion order (`dict.keys()`). -/
def keys {β : Type} (m : Dict β) : List String := m.map Prod.fst

/-- `m[k] = v`: replace the binding if the key is present, else append. -/
def dictInsert {β : Type} (m : Dict β) (k : String) (v : β) : Dict β :=
  if m.any (fun e => e.1 == k) then
    m.map (fun e => if e.1 == k then (k, v) else e)
  else m ++ [(k, v)]

/-- Python's `<` on strings: lexicographic comparison of the code-point
sequences. Stated on character lists; `strLe` lifts it to `String`.
Proved below (`strLe_iff`) to agree with the standard order on
`String`. -/
def charListLe : List Char → List Char → Bool
  | [], _ => true
  | _ :: _, [] => false
  | a :: as, b :: bs => if a < b then true else if b < a then false else charListLe as bs

/-- `a <= b` on Python strings. -/
def strLe (a b : String) : Bool := charListLe a.data b.data

/-- Python's `s.startswith(pre)`: the code points of `pre` are a prefix
of those of `s`. -/
def strStartsWith (s pre : String) : Bool := pre.data.isPrefixOf s.data

/-- `sorted(...)` on a list of strings: Python's sort under the
lexicographic code-point order. On duplicate-free inputs any correct
sort produces the same list, so insertion sort is an exact model. -/
def sortStrs (l : List String) : List String :=
  List.insertionSort (fun a b => strLe a b = true) l

/-- `o.get("size") != n.get("size") or o.get("modified") != n.get("modified")`
(line 171 of `src/app.py`). -/
def recordDiffers (o n : FileRecord) : Bool :=
  o.size != n.size || o.modified != n.modified

/-- The body of the `for p in common` loop: look both records up and apply
the size/modified test. Inside `compare` the key is always present in both
dicts, so the catch-all branch is unreachable there. -/
def pathChanged (old new : Dict FileRecord) (p : String) : Bool :=
  match old.lookup p, new.lookup p with
  | some o, some n => recordDiffers o n
  | _, _ => false

/-- Result of `compare` (`src/app.py` line 175). -/
structure DiffResult where
  added : List String
  deleted : List String
  changed : List String
  unchanged : List String
deriving Repr, DecidableEq

/-- `compare(old, new)` from `src/app.py` lines 157–175. `set(keys)` is a
deduplicated key list; `sorted(set - set)`, `sorted(set & set)` are the
sorted filtered lists; the classification loop over `common` is the two
complementary filters, preserving `common`'s order as the loop does. -/
def compare (old new : Dict FileRecord) : DiffResult :=
  let old_set := (keys old).dedup
  let new_set := (keys new).dedup
  let added := sortStrs (new_set.filter (fun k => !(old_set.contains k)))
  let deleted := sortStrs (old_set.filter (fun k => !(new_set.contains k)))
  let common := sortStrs (old_set.filter (fun k => new_set.contains k))
  let changed := common.filter (fun p => pathChanged old new p)
  let unchanged := common.filter (fun p => !(pathChanged old new p))
  { added := added, deleted := deleted, changed := changed, unchanged := unchanged }

example : compare [] [] = ⟨[], [], [], []⟩ := by decide

/-! ### Size and time formatting

The loop in `human_readable_size` is embedded carrying its running value
as the exact rational `n / 1024^j`, an explicit numerator/denominator
pair of naturals, so every comparison and the final rounding are exact
integer arithmetic. This is arithmetically faithful to the source for
inputs below `2^53`: there the initial `int` is exactly representable as
a double and each `/= 1024` is an exact exponent shift, so the float the
program formats is exactly `n / 1024^j`. For larger inputs the first
true division rounds the value to a 53-bit significand and the printed
hundredth can differ from the exact value, so theorems about the
rendered output quantify only over `n < 2^53` — except at inputs whose
whole float chain is exact anyway, such as the power of two `2^60` used
below. -/

/-- `f"{num/den:.2f}"` for `den > 0`: two decimal places, rounding half
to even — the rounding Python's `format(x, '.2f')` applies to the value.
`c` is the total number of hundredths after rounding: the floor of
`100*num/den`, plus one when the discarded fraction exceeds one half, a
tie going to the even neighbour. -/
def fmt2 (num den : ℕ) : String :=
  let t := num * 100
  let q := t / den
  let r := t % den
  let c := if 2 * r < den then q
    else if den < 2 * r then q + 1
    else if q % 2 = 0 then q else q + 1
  toString (c / 100) ++ "." ++ (if c % 100 < 10 then "0" else "") ++ toString (c % 100)

/-- The unit loop of `human_readable_size` (`src/app.py` lines 87–91) on
the value `num / den`: return at the first unit where the value is below
1024 (exactly when `num < 1024 * den`), else divide the value by 1024
(`den * 1024`) and move to the next unit; after `TB`, fall through to
`PB` unconditionally. -/
def sizeLoop (num : ℕ) : ℕ → List String → String
  | den, [] => fmt2 num den ++ " PB"
  | den, unit :: rest =>
    if num < 1024 * den then fmt2 num den ++ " " ++ unit
    else sizeLoop num (den * 1024) rest

/-- `human_readable_size` (`src/app.py` lines 84–91): `None` passes
through, a byte count goes through the unit loop starting at the value
`n / 1`. -/
def human_readable_size : Option ℕ → Option String
  | none => none
  | some n => some (sizeLoop n 1 ["B", "KB", "MB", "GB", "TB"])

example : human_readable_size (some 500) = some "500.00 B" := by decide
example : human_readable_size (some 5000) = some "4.88 KB" := by decide

/-! ### The environment: what the operating system answers -/

/-- The fields of `os.stat_result` the code reads. Timestamps are raw
instants (seconds, possibly fractional). -/
structure StatInfo where
  st_size : ℕ
  st_ctime : ℚ
  st_mtime : ℚ
  st_atime : ℚ
deriving Repr, DecidableEq

/-- One filesystem instant, as the source observes it.
`walk` models `os.walk`: a list of `(root, files)` directory entries (the
`dirs` component of each triple is never read by the code and is
omitted); `os.walk` silently skips unenterable directories, so they
simply do not appear. `statOf` is `Path.stat()`: `.error e` models the
raised exception with message `str(e) = e`. `isFile` is the boolean
`Path.is_file()` evaluates to *when it returns*: on CPython ≥ 3.13 it
always returns, but on ≤ 3.12 it re-raises an `OSError` whose errno is
outside {ENOENT, ENOTDIR, EBADF, ELOOP} — that raise path, which aborts
a scan, is modelled separately by `path_is_file` / `get_file_info_py`
below, and the scan-level theorems condition on a scan that completed.
`fmtTime` is `datetime.fromtimestamp(ts).strftime(...)`: `none` models a
raised exception. -/
structure Env where
  pathExists : String → Bool
  walk : String → List (String × List String)
  statOf : String → Except String StatInfo
  isFile : String → Bool
  fmtTime : ℚ → Option String

/-- `timestamp` (`src/app.py` lines 78–82): format the instant, and on
any exception return the empty string. -/
def timestamp (env : Env) (ts : ℚ) : String :=
  match env.fmtTime ts with
  | some s => s
  | none => ""

/-- `Path.name`: the final path component (text after the last `/`). -/
def baseName (s : String) : String := String.mk ((s.data.splitOn '/').getLastD [])

/-- `str(Path(root) / fname)` for the relative, separator-free names
`os.walk` produces. -/
def pathJoin (root fname : String) : String := root ++ "/" ++ fname

/-! ### Metadata extractor, scanner, baseline store -/

/-- `get_file_info` (`src/app.py` lines 94–116): on a successful stat,
populate every field and leave `error` absent; on an exception, keep
`name`/`relpath`/`is_file` and set `error` to the exception text, all
other fields `None`. This models the executions in which the
`path.is_file()` call inside the except handler returns — guaranteed on
CPython ≥ 3.13, but on ≤ 3.12 that call re-raises for non-ignorable
errnos and the extractor propagates; that behaviour is modelled
faithfully by `get_file_info_py` below. -/
def get_file_info (env : Env) (path : String) : FileRecord :=
  match env.statOf path with
  | Except.ok s =>
    { name := baseName path
      relpath := path
      size := human_readable_size (some s.st_size)
      created := some (timestamp env s.st_ctime)
      modified := some (timestamp env s.st_mtime)
      accessed := some (timestamp env s.st_atime)
      is_file := env.isFile path
      error := none }
  | Except.error e =>
    { name := baseName path
      relpath := path
      size := none
      created := none
      modified := none
      accessed := none
      is_file := env.isFile path
      error := some e }

/-- The inner loop of `scan_folder` over one directory's file names:
skip names starting with `~$`, otherwise record `get_file_info`. -/
def scanFiles (env : Env) (root : String) (files : List String)
    (acc : Dict FileRecord) : Dict FileRecord :=
  files.foldl (fun acc fname =>
    if strStartsWith fname "~$" then acc
    else dictInsert acc (pathJoin root fname) (get_file_info env (pathJoin root fname))) acc

/-- `scan_folder` (`src/app.py` lines 119–132): raise `FileNotFoundError`
when the root does not exist, else walk every directory and collect
records. -/
def scan_folder (env : Env) (folder_path : String) :
    Except String (Dict FileRecord) :=
  if env.pathExists folder_path then
    Except.ok ((env.walk folder_path).foldl
      (fun acc entry => scanFiles env entry.1 entry.2 acc) [])
  else Except.error ("Path not found: " ++ folder_path)

/-- The on-disk baseline directory: maps file name (inside
`.folder_forensics_baselines`) to full file content. -/
abbrev Store := List (String × String)

/-- Outcome of one `save_baseline_for` call: the raised-or-returned value
and the state the baseline directory is left in. -/
structure SaveOutcome where
  result : Except String String
  store : Store

/-- `save_baseline_for` (`src/app.py` lines 135–144), with its failure
behaviour made explicit. `hash` stands for
`hashlib.sha1(path).hexdigest()`; `content` is the full serialized JSON
record `json.dump` would emit. `open(fp, "w")` truncates the target file
to empty before anything is written; `json.dump` then streams the
serialization into it. `budget = some b` injects a write error after `b`
characters have been written (disk full, permission revoked);
`budget = none` is the failure-free run. -/
def save_baseline_for (hash : String → String) (st : Store)
    (path_str content : String) (budget : Option ℕ) : SaveOutcome :=
  let fp := hash path_str ++ ".json"
  let truncated := dictInsert st fp ""
  match budget with
  | none => { result := Except.ok fp, store := dictInsert truncated fp content }
  | some b =>
    if content.length ≤ b then
      { result := Except.ok fp, store := dictInsert truncated fp content }
    else
      { result := Except.error "write failed"
        store := dictInsert truncated fp (content.take b) }

/-! ### The code-point order agrees with the standard `String` order -/

theorem charListLe_not_lex :
    ∀ as bs : List Char, charListLe as bs = true ↔ ¬ List.Lex (· < ·) bs as
  | [], bs => by
    constructor
    · intro _ h
      cases h
    · intro _
      rfl
  | a :: as, [] => by
    constructor
    · intro h
      exact nomatch h
    · intro h
      exact absurd List.Lex.nil h
  | a :: as, b :: bs => by
    simp only [charListLe]
    by_cases hab : a < b
    · simp only [if_pos hab]
      constructor
      · intro _ h
        cases h with
        | cons h' => exact lt_irrefl a hab
        | rel h' => exact lt_asymm hab h'
      · intro _
        trivial
    · by_cases hba : b < a
      · simp only [if_neg hab, if_pos hba]
        constructor
        · intro h
          exact nomatch h
        · intro h
          exact absurd (List.Lex.rel hba) h
      · have heq : a = b := le_antisymm (not_lt.mp hba) (not_lt.mp hab)
        subst heq
        simp only [if_neg hab, if_neg hba]
        rw [charListLe_not_lex as bs]
        constructor
        · intro h h'
          cases h' with
          | cons h'' => exact h h''
          | rel h'' => exact hba h''
        · intro h h'
          exact h (List.Lex.cons h')

theorem strLe_iff (a b : String) : strLe a b = true ↔ a ≤ b := by
  rw [String.le_iff_toList_le]
  rw [← not_lt]
  exact charListLe_not_lex a.data b.data

instance : IsTotal String (fun a b => strLe a b = true) :=
  ⟨fun a b => by
    rcases le_total a b with h | h
    · exact Or.inl ((strLe_iff a b).mpr h)
    · exact Or.inr ((strLe_iff b a).mpr h)⟩

instance : IsTrans String (fun a b => strLe a b = true) :=
  ⟨fun a b c hab hbc =>
    (strLe_iff a c).mpr (le_trans ((strLe_iff a b).mp hab) ((strLe_iff b c).mp hbc))⟩

theorem mem_sortStrs {l : List String} {p : String} : p ∈ sortStrs l ↔ p ∈ l :=
  List.mem_insertionSort _

theorem sorted_sortStrs (l : List String) : (sortStrs l).Sorted (· ≤ ·) :=
  (List.sorted_insertionSort _ l).imp fun h => (strLe_iff _ _).mp h

/-! ### Dictionary lemmas -/

theorem mem_keys_of_lookup {β : Type} {m : Dict β} {k : String} {v : β}
    (h : m.lookup k = some v) : k ∈ keys m := by
  induction m with
  | nil => exact absurd h (by simp)
  | cons e rest ih =>
    rcases e with ⟨k', v'⟩
    rw [List.lookup] at h
    cases hk : (k == k') with
    | true =>
      simp [keys, eq_of_beq hk]
    | false =>
      rw [hk] at h
      simp only [keys, List.map_cons, List.mem_cons]
      exact Or.inr (ih h)

/-! ### Membership in the four `compare` outputs -/

theorem mem_compare_added {old new : Dict FileRecord} {p : String} :
    p ∈ (compare old new).added ↔ p ∈ keys new ∧ p ∉ keys old := by
  simp [compare, mem_sortStrs, List.mem_filter, List.mem_dedup]

theorem mem_compare_deleted {old new : Dict FileRecord} {p : String} :
    p ∈ (compare old new).deleted ↔ p ∈ keys old ∧ p ∉ keys new := by
  simp [compare, mem_sortStrs, List.mem_filter, List.mem_dedup]

theorem mem_compare_changed {old new : Dict FileRecord} {p : String} :
    p ∈ (compare old new).changed ↔
      (p ∈ keys old ∧ p ∈ keys new) ∧ pathChanged old new p = true := by
  simp [compare, mem_sortStrs, List.mem_filter, List.mem_dedup, and_assoc]

theorem mem_compare_unchanged {old new : Dict FileRecord} {p : String} :
    p ∈ (compare old new).unchanged ↔
      (p ∈ keys old ∧ p ∈ keys new) ∧ pathChanged old new p = false := by
  simp [compare, mem_sortStrs, List.mem_filter, List.mem_dedup, and_assoc]

/-- The size/modified comparison made explicit, given the two looked-up
records. -/
theorem pathChanged_eq {old new : Dict FileRecord} {p : String}
    {o n : FileRecord} (ho : old.lookup p = some o) (hn : new.lookup p = some n) :
    pathChanged old new p = recordDiffers o n := by
  simp [pathChanged, ho, hn]

theorem recordDiffers_eq_true_iff (o n : FileRecord) :
    recordDiffers o n = true ↔ o.size ≠ n.size ∨ o.modified ≠ n.modified := by
  simp [recordDiffers]

theorem recordDiffers_eq_false_iff (o n : FileRecord) :
    recordDiffers o n = false ↔ o.size = n.size ∧ o.modified = n.modified := by
  simp [recordDiffers]

/-- Core of C2/C3: for a path present in both dicts, the classification
is exactly the size/modified string test on the two records. -/
theorem changed_unchanged_rule (old new : Dict FileRecord) (p : String)
    (o n : FileRecord) (ho : old.lookup p = some o) (hn : new.lookup p = some n) :
    (p ∈ (compare old new).changed ↔ o.size ≠ n.size ∨ o.modified ≠ n.modified) ∧
    (p ∈ (compare old new).unchanged ↔ o.size = n.size ∧ o.modified = n.modified) := by
  have hko := mem_keys_of_lookup ho
  have hkn := mem_keys_of_lookup hn
  constructor
  · rw [mem_compare_changed, pathChanged_eq ho hn, recordDiffers_eq_true_iff]
    simp [hko, hkn]
  · rw [mem_compare_unchanged, pathChanged_eq ho hn]
    rw [← Bool.not_eq_true, recordDiffers_eq_true_iff]
    simp [hko, hkn, not_or]

/-! ### Claim theorems -/

/-- C1: for every pair of input mappings, the four sequences returned by
`compare` are pairwise disjoint and their union is the union of the two
input key sets. -/
theorem compare_is_partition (old new : Dict FileRecord) :
    (∀ p, (p ∈ (compare old new).added ∨ p ∈ (compare old new).deleted ∨
        p ∈ (compare old new).changed ∨ p ∈ (compare old new).unchanged) ↔
        (p ∈ keys old ∨ p ∈ keys new)) ∧
    (compare old new).added.Disjoint (compare old new).deleted ∧
    (compare old new).added.Disjoint (compare old new).changed ∧
    (compare old new).added.Disjoint (compare old new).unchanged ∧
    (compare old new).deleted.Disjoint (compare old new).changed ∧
    (compare old new).deleted.Disjoint (compare old new).unchanged ∧
    (compare old new).changed.Disjoint (compare old new).unchanged := by
  refine ⟨fun p => ?_, ?_, ?_, ?_, ?_, ?_, ?_⟩
  · rw [mem_compare_added, mem_compare_deleted, mem_compare_changed,
      mem_compare_unchanged]
    by_cases ho : p ∈ keys old <;> by_cases hn : p ∈ keys new <;>
      cases hpc : pathChanged old new p <;> simp [ho, hn, hpc]
  · intro p hp hq
    rw [mem_compare_added] at hp
    rw [mem_compare_deleted] at hq
    exact hp.2 hq.1
  · intro p hp hq
    rw [mem_compare_added] at hp
    rw [mem_compare_changed] at hq
    exact hp.2 hq.1.1
  · intro p hp hq
    rw [mem_compare_added] at hp
    rw [mem_compare_unchanged] at hq
    exact hp.2 hq.1.1
  · intro p hp hq
    rw [mem_compare_deleted] at hp
    rw [mem_compare_changed] at hq
    exact hp.2 hq.1.2
  · intro p hp hq
    rw [mem_compare_deleted] at hp
    rw [mem_compare_unchanged] at hq
    exact hp.2 hq.1.2
  · intro p hp hq
    rw [mem_compare_changed] at hp
    rw [mem_compare_unchanged] at hq
    rw [hp.2] at hq
    exact Bool.noConfusion hq.2

/-- C2: for a path present in both mappings, `compare` classifies it as
changed exactly when the two records' `size` or `modified` strings
differ, and as unchanged otherwise. -/
theorem compare_changed_iff (old new : Dict FileRecord) (p : String)
    (o n : FileRecord) (ho : old.lookup p = some o) (hn : new.lookup p = some n) :
    (p ∈ (compare old new).changed ↔ o.size ≠ n.size ∨ o.modified ≠ n.modified) ∧
    (p ∈ (compare old new).unchanged ↔ o.size = n.size ∧ o.modified = n.modified) :=
  changed_unchanged_rule old new p o n ho hn

/-- A record as `get_file_info` returns it from a failed stat call:
`error` set, all metadata absent. -/
def errRec : FileRecord :=
  { name := "f.txt", relpath := "d/f.txt", size := none, created := none,
    modified := none, accessed := none, is_file := true, error := some "denied" }

/-- A record from a successful stat call. -/
def okRec : FileRecord :=
  { name := "f.txt", relpath := "d/f.txt", size := some "1.00 KB",
    created := some "2024-01-01 00:00:00", modified := some "2024-01-01 00:00:00",
    accessed := some "2024-01-01 00:00:00", is_file := true, error := none }

/-- A second successful record for the same path with a later modified
time. -/
def okRec5 : FileRecord :=
  { name := "f.txt", relpath := "d/f.txt", size := some "1.00 KB",
    created := some "2024-01-01 00:00:00", modified := some "2024-01-01 00:00:05",
    accessed := some "2024-01-01 00:00:00", is_file := true, error := none }

theorem compare_changed_iff_witness :
    ([("d/f.txt", okRec)].lookup "d/f.txt" = some okRec) ∧
    ([("d/f.txt", okRec5)].lookup "d/f.txt" = some okRec5) ∧
    (("d/f.txt" ∈ (compare [("d/f.txt", okRec)] [("d/f.txt", okRec5)]).changed ↔
        okRec.size ≠ okRec5.size ∨ okRec.modified ≠ okRec5.modified) ∧
      ("d/f.txt" ∈ (compare [("d/f.txt", okRec)] [("d/f.txt", okRec5)]).unchanged ↔
        okRec.size = okRec5.size ∧ okRec.modified = okRec5.modified)) :=
  ⟨by decide, by decide,
    compare_changed_iff [("d/f.txt", okRec)] [("d/f.txt", okRec5)] "d/f.txt"
      okRec okRec5 (by decide) (by decide)⟩

/-- C3 counterexample: a record with `error` set *does* contribute to the
changed classification beyond presence/absence — its absent `size` and
`modified` compare as different from the populated fields of the other
record, so the path lands in `changed` although it is present in both
mappings and the only record difference stems from the errored record's
metadata being absent. -/
theorem error_record_changed_counterexample :
    ([("d/f.txt", errRec)].lookup "d/f.txt" = some errRec) ∧
    ([("d/f.txt", okRec)].lookup "d/f.txt" = some okRec) ∧
    errRec.error ≠ none ∧
    "d/f.txt" ∈ (compare [("d/f.txt", errRec)] [("d/f.txt", okRec)]).changed := by
  refine ⟨by decide, by decide, by decide, ?_⟩
  decide

/-- C3 amended: `compare` never consults the `error` field, but it
applies the same size/modified string test to errored records: the
absent fields of an errored record differ from any populated field, so a
path present in both mappings with at least one errored record is
classified changed exactly when the optional `size` or `modified` values
differ — in particular an all-absent errored record against a record
with any populated metadata is always `changed`, never `unchanged`. -/
theorem error_records_still_compared (old new : Dict FileRecord) (p : String)
    (o n : FileRecord) (ho : old.lookup p = some o) (hn : new.lookup p = some n)
    (he : o.error ≠ none ∨ n.error ≠ none) :
    (p ∈ (compare old new).changed ↔ o.size ≠ n.size ∨ o.modified ≠ n.modified) ∧
    (o.size = none → o.modified = none → (n.size ≠ none ∨ n.modified ≠ none) →
      p ∈ (compare old new).changed) := by
  have h := changed_unchanged_rule old new p o n ho hn
  refine ⟨h.1, fun hs hm hn' => h.1.mpr ?_⟩
  rcases hn' with hn' | hn'
  · exact Or.inl (by rw [hs]; exact fun hh => hn' hh.symm)
  · exact Or.inr (by rw [hm]; exact fun hh => hn' hh.symm)

theorem error_records_still_compared_witness :
    ([("d/f.txt", errRec)].lookup "d/f.txt" = some errRec) ∧
    ([("d/f.txt", okRec)].lookup "d/f.txt" = some okRec) ∧
    errRec.error ≠ none ∧
    (("d/f.txt" ∈ (compare [("d/f.txt", errRec)] [("d/f.txt", okRec)]).changed ↔
        errRec.size ≠ okRec.size ∨ errRec.modified ≠ okRec.modified) ∧
      (errRec.size = none → errRec.modified = none →
        (okRec.size ≠ none ∨ okRec.modified ≠ none) →
        "d/f.txt" ∈ (compare [("d/f.txt", errRec)] [("d/f.txt", okRec)]).changed)) :=
  ⟨by decide, by decide, by decide,
    error_records_still_compared [("d/f.txt", errRec)] [("d/f.txt", okRec)]
      "d/f.txt" errRec okRec (by decide) (by decide) (Or.inl (by decide))⟩

/-- C7: each of the four sequences returned by `compare` is sorted in the
lexicographic (code-point) order on paths. -/
theorem compare_outputs_sorted (old new : Dict FileRecord) :
    (compare old new).added.Sorted (· ≤ ·) ∧
    (compare old new).deleted.Sorted (· ≤ ·) ∧
    (compare old new).changed.Sorted (· ≤ ·) ∧
    (compare old new).unchanged.Sorted (· ≤ ·) := by
  refine ⟨?_, ?_, ?_, ?_⟩ <;> simp only [compare]
  · exact sorted_sortStrs _
  · exact sorted_sortStrs _
  · exact List.Pairwise.filter _ (sorted_sortStrs _)
  · exact List.Pairwise.filter _ (sorted_sortStrs _)

/-! ### dictInsert lemmas -/

theorem lookup_dictInsert {β : Type} (k : String) (v : β) :
    ∀ m : Dict β, (dictInsert m k v).lookup k = some v := by
  have repl : ∀ m : Dict β, m.any (fun x => x.1 == k) = true →
      ((m.map fun x => if x.1 == k then (k, v) else x).lookup k = some v) := by
    intro m
    induction m with
    | nil =>
      intro h
      simp at h
    | cons e rest ih =>
      intro h
      rcases e with ⟨k', v'⟩
      by_cases he : (k' == k) = true
      · simp only [List.map_cons, if_pos he]
        exact List.lookup_cons_self
      · have hke : (k == k') = false := by
          rw [beq_eq_false_iff_ne]
          intro hk
          exact he (beq_iff_eq.mpr hk.symm)
        simp only [List.map_cons, if_neg he, List.lookup_cons, hke, Bool.false_eq_true,
          if_false]
        apply ih
        rcases List.any_eq_true.mp h with ⟨x, hx, hxk⟩
        rcases List.mem_cons.mp hx with rfl | hx'
        · exact absurd hxk he
        · exact List.any_eq_true.mpr ⟨x, hx', hxk⟩
  intro m
  unfold dictInsert
  by_cases h : m.any (fun x => x.1 == k) = true
  · rw [if_pos h]
    exact repl m h
  · rw [if_neg h]
    rw [List.lookup_append]
    have hnone : m.lookup k = none := by
      rw [List.lookup_eq_none_iff]
      intro x hx
      rw [Bool.not_eq_true, List.any_eq_false] at h
      have hxk := h x hx
      simp only [bne_iff_ne, ne_eq]
      intro hk
      exact hxk (beq_iff_eq.mpr hk.symm)
    rw [hnone]
    simp

theorem mem_keys_dictInsert {β : Type} (m : Dict β) (k : String) (v : β) (p : String) :
    p ∈ keys (dictInsert m k v) ↔ p = k ∨ p ∈ keys m := by
  unfold dictInsert
  by_cases h : m.any (fun x => x.1 == k) = true
  · rw [if_pos h]
    have hkeys : keys (m.map fun x => if x.1 == k then (k, v) else x) = keys m := by
      simp only [keys, List.map_map]
      apply List.map_congr_left
      intro x _
      by_cases hx : (x.1 == k) = true
      · simp [Function.comp, hx, eq_of_beq hx]
      · simp [Function.comp, hx]
    rw [hkeys]
    rcases List.any_eq_true.mp h with ⟨x, hx, hxk⟩
    have hk : k ∈ keys m := by
      rw [← eq_of_beq hxk]
      exact List.mem_map_of_mem Prod.fst hx
    constructor
    · exact fun hp => Or.inr hp
    · rintro (rfl | hp)
      · exact hk
      · exact hp
  · rw [if_neg h]
    simp [keys, or_comm]

theorem mem_dictInsert {β : Type} {m : Dict β} {k : String} {v : β} {e : String × β}
    (h : e ∈ dictInsert m k v) : e ∈ m ∨ e = (k, v) := by
  unfold dictInsert at h
  by_cases ha : m.any (fun x => x.1 == k) = true
  · rw [if_pos ha] at h
    rcases List.mem_map.mp h with ⟨x, hx, hxe⟩
    by_cases hk : (x.1 == k) = true
    · rw [if_pos hk] at hxe
      exact Or.inr hxe.symm
    · rw [if_neg hk] at hxe
      exact Or.inl (hxe ▸ hx)
  · rw [if_neg ha] at h
    rcases List.mem_append.mp h with h | h
    · exact Or.inl h
    · exact Or.inr (List.mem_singleton.mp h)

/-! ### Scan traversal lemmas -/

theorem mem_keys_scanFiles (env : Env) (root : String) :
    ∀ (files : List String) (acc : Dict FileRecord) (p : String),
      (p ∈ keys (scanFiles env root files acc) ↔
        p ∈ keys acc ∨ ∃ fname ∈ files, strStartsWith fname "~$" = false ∧
          p = pathJoin root fname)
  | [], acc, p => by
    simp [scanFiles]
  | fname :: rest, acc, p => by
    have step : scanFiles env root (fname :: rest) acc =
        scanFiles env root rest
          (if strStartsWith fname "~$" then acc
           else dictInsert acc (pathJoin root fname)
             (get_file_info env (pathJoin root fname))) := by
      simp [scanFiles]
    rw [step, mem_keys_scanFiles env root rest _ p, List.exists_mem_cons_iff]
    by_cases hsw : strStartsWith fname "~$" = true
    · rw [if_pos hsw]
      constructor
      · rintro (h | h)
        · exact Or.inl h
        · exact Or.inr (Or.inr h)
      · rintro (h | ⟨hfalse, _⟩ | h)
        · exact Or.inl h
        · rw [hsw] at hfalse
          exact Bool.noConfusion hfalse
        · exact Or.inr h
    · rw [if_neg hsw, mem_keys_dictInsert, Bool.not_eq_true] at *
      rw [hsw]
      constructor
      · rintro ((rfl | h) | h)
        · exact Or.inr (Or.inl ⟨rfl, rfl⟩)
        · exact Or.inl h
        · exact Or.inr (Or.inr h)
      · rintro (h | ⟨_, rfl⟩ | h)
        · exact Or.inl (Or.inr h)
        · exact Or.inl (Or.inl rfl)
        · exact Or.inr h

theorem mem_keys_scanWalk (env : Env) :
    ∀ (entries : List (String × List String)) (acc : Dict FileRecord) (p : String),
      (p ∈ keys (entries.foldl (fun acc entry => scanFiles env entry.1 entry.2 acc) acc) ↔
        p ∈ keys acc ∨ ∃ e ∈ entries, ∃ fname ∈ e.2,
          strStartsWith fname "~$" = false ∧ p = pathJoin e.1 fname)
  | [], acc, p => by
    simp
  | entry :: rest, acc, p => by
    rw [List.foldl_cons, mem_keys_scanWalk env rest _ p, mem_keys_scanFiles,
      List.exists_mem_cons_iff]
    constructor
    · rintro ((h | h) | h)
      · exact Or.inl h
      · exact Or.inr (Or.inl h)
      · exact Or.inr (Or.inr h)
    · rintro (h | h | h)
      · exact Or.inl (Or.inl h)
      · exact Or.inl (Or.inr h)
      · exact Or.inr h

theorem get_file_info_fields (env : Env) (q : String) :
    (get_file_info env q).relpath = q ∧ (get_file_info env q).name = baseName q := by
  unfold get_file_info
  cases env.statOf q <;> simp

theorem scanFiles_record_inv (env : Env) (root : String) :
    ∀ (files : List String) (acc : Dict FileRecord),
      (∀ e ∈ acc, e.2.relpath = e.1 ∧ e.2.name = baseName e.1) →
      ∀ e ∈ scanFiles env root files acc, e.2.relpath = e.1 ∧ e.2.name = baseName e.1
  | [], acc, hacc => hacc
  | fname :: rest, acc, hacc => by
    have step : scanFiles env root (fname :: rest) acc =
        scanFiles env root rest
          (if strStartsWith fname "~$" then acc
           else dictInsert acc (pathJoin root fname)
             (get_file_info env (pathJoin root fname))) := by
      simp [scanFiles]
    rw [step]
    by_cases hsw : strStartsWith fname "~$" = true
    · rw [if_pos hsw]
      exact scanFiles_record_inv env root rest acc hacc
    · rw [if_neg hsw]
      apply scanFiles_record_inv env root rest
      intro e he
      rcases mem_dictInsert he with he' | rfl
      · exact hacc e he'
      · exact get_file_info_fields env (pathJoin root fname)

theorem scanWalk_record_inv (env : Env) :
    ∀ (entries : List (String × List String)) (acc : Dict FileRecord),
      (∀ e ∈ acc, e.2.relpath = e.1 ∧ e.2.name = baseName e.1) →
      ∀ e ∈ entries.foldl (fun acc entry => scanFiles env entry.1 entry.2 acc) acc,
        e.2.relpath = e.1 ∧ e.2.name = baseName e.1
  | [], acc, hacc => hacc
  | entry :: rest, acc, hacc => by
    rw [List.foldl_cons]
    exact scanWalk_record_inv env rest _
      (scanFiles_record_inv env entry.1 entry.2 acc hacc)

/-- A concrete filesystem instant used by the witnesses: root `top`
containing `a.txt` (100 bytes), the editor lock file `~$lock.tmp`, and
`locked.txt` whose stat call fails. -/
def env0 : Env :=
  { pathExists := fun q => q == "top"
    walk := fun _ => [("top", ["a.txt", "~$lock.tmp", "locked.txt"])]
    statOf := fun q =>
      if q == "top/locked.txt" then Except.error "denied"
      else Except.ok { st_size := 100, st_ctime := 1, st_mtime := 2, st_atime := 3 }
    isFile := fun _ => true
    fmtTime := fun _ => some "2024-01-01 00:00:00" }

/-- The mapping `scan_folder env0 "top"` produces. -/
def scanResult0 : Dict FileRecord :=
  (env0.walk "top").foldl (fun acc e => scanFiles env0 e.1 e.2 acc) []

/-- An `OSError` raised by `os.stat`, carrying the errno classification
that `Path.is_file()` applies on CPython ≤ 3.12: `ignorable = true` for
errno in {ENOENT, ENOTDIR, EBADF, ELOOP} (pathlib swallows these and
`is_file()` returns `False`); `ignorable = false` for every other errno,
e.g. EACCES (permission denied), which `is_file()` re-raises. -/
structure PyOSError where
  msg : String
  ignorable : Bool
deriving Repr, DecidableEq

/-- `Path.is_file()` as implemented on CPython ≤ 3.12: it calls `stat()`
and catches only the ignorable errnos; a failing stat with any other
errno re-raises out of `is_file()`. `statResult` is the stat outcome at
this instant (the same outcome `get_file_info` just observed), `is_reg`
whether the successful stat describes a regular file. -/
def path_is_file (statResult : Except PyOSError StatInfo) (is_reg : Bool) :
    Except String Bool :=
  match statResult with
  | Except.ok _ => Except.ok is_reg
  | Except.error e => if e.ignorable then Except.ok false else Except.error e.msg

/-- `get_file_info` (`src/app.py` lines 94–116) under the CPython ≤ 3.12
semantics of `Path.is_file()`. The except branch builds the error record
whose `is_file` field evaluates `path.is_file()` (line 114): when the
stat failure's errno is not ignorable, that call re-raises and the
whole extractor propagates the exception (`Except.error`) instead of
returning a record. `tfmt` is the (total) `timestamp` helper. -/
def get_file_info_py (tfmt : ℚ → String) (statResult : Except PyOSError StatInfo)
    (is_reg : Bool) (path : String) : Except String FileRecord :=
  match statResult with
  | Except.ok s =>
    (path_is_file statResult is_reg).map fun b =>
      { name := baseName path
        relpath := path
        size := human_readable_size (some s.st_size)
        created := some (tfmt s.st_ctime)
        modified := some (tfmt s.st_mtime)
        accessed := some (tfmt s.st_atime)
        is_file := b
        error := none }
  | Except.error e =>
    (path_is_file statResult is_reg).map fun b =>
      { name := baseName path
        relpath := path
        size := none
        created := none
        modified := none
        accessed := none
        is_file := b
        error := some e.msg }

/-- C5: the claim states the spec's intent (`must never raise`), and the
code misses it on CPython ≤ 3.12 (the repository pins no version): when
the stat call fails with a non-ignorable errno such as EACCES, the
`path.is_file()` call evaluated while building the error record
(`src/app.py` line 114) re-raises, so `get_file_info` propagates the
exception and a single unreadable file aborts the scan. The second
conjunct shows the contrast: for an ignorable errno the extractor
returns the claimed record — `name`/`relpath`/`is_file` populated, all
metadata absent, `error` set. -/
theorem get_file_info_propagates_permission_error :
    get_file_info_py (fun _ => "")
        (Except.error { msg := "Permission denied", ignorable := false }) false "d/f" =
      Except.error "Permission denied" ∧
    get_file_info_py (fun _ => "")
        (Except.error { msg := "No such file or directory", ignorable := true })
        false "d/f" =
      Except.ok
        { name := baseName "d/f", relpath := "d/f", size := none, created := none,
          modified := none, accessed := none, is_file := false,
          error := some "No such file or directory" } :=
  ⟨rfl, rfl⟩

/-- C8: `scan_folder` fails with the `FileNotFoundError` message exactly
when the root path does not exist, and a successful mapping is only ever
produced for an existing root (an `Except` result is either the error or
the mapping, never a partial mixture). -/
theorem scan_notfound_iff (env : Env) (p : String) :
    (scan_folder env p = Except.error ("Path not found: " ++ p) ↔
      env.pathExists p = false) ∧
    ∀ m, scan_folder env p = Except.ok m → env.pathExists p = true := by
  unfold scan_folder
  by_cases h : env.pathExists p = true
  · rw [if_pos h]
    refine ⟨⟨fun hh => absurd hh (by simp), fun hh => ?_⟩, fun m _ => h⟩
    rw [h] at hh
    exact Bool.noConfusion hh
  · rw [Bool.not_eq_true] at h
    rw [if_neg (by rw [h]; exact Bool.noConfusion)]
    exact ⟨⟨fun _ => h, fun _ => rfl⟩, fun m hm => absurd hm (by simp)⟩

theorem scan_notfound_iff_witness :
    env0.pathExists "missing" = false ∧
    (scan_folder env0 "missing" =
        Except.error ("Path not found: " ++ "missing") ↔
      env0.pathExists "missing" = false) ∧
    ∀ m, scan_folder env0 "missing" = Except.ok m → env0.pathExists "missing" = true :=
  ⟨by decide, (scan_notfound_iff env0 "missing").1, (scan_notfound_iff env0 "missing").2⟩

/-- C9: in a successful scan the keys are exactly the joined paths of the
walked file names whose base name does not begin with `~$` — that prefix
is the only filtering applied. -/
theorem scan_lockfile_filter (env : Env) (top : String) (m : Dict FileRecord)
    (h : scan_folder env top = Except.ok m) (p : String) :
    p ∈ keys m ↔ ∃ e ∈ env.walk top, ∃ fname ∈ e.2,
      strStartsWith fname "~$" = false ∧ p = pathJoin e.1 fname := by
  unfold scan_folder at h
  by_cases hex : env.pathExists top = true
  · rw [if_pos hex, Except.ok.injEq] at h
    subst h
    rw [mem_keys_scanWalk]
    simp [keys]
  · rw [if_neg hex] at h
    exact absurd h (by simp)

theorem scan_lockfile_filter_witness :
    scan_folder env0 "top" = Except.ok scanResult0 ∧
    keys scanResult0 = ["top/a.txt", "top/locked.txt"] ∧
    ("top/a.txt" ∈ keys scanResult0 ↔ ∃ e ∈ env0.walk "top", ∃ fname ∈ e.2,
      strStartsWith fname "~$" = false ∧ "top/a.txt" = pathJoin e.1 fname) :=
  ⟨rfl, by decide, scan_lockfile_filter env0 "top" scanResult0 rfl "top/a.txt"⟩

/-- C10: every binding of a scanned mapping is internally consistent —
the record's `relpath` equals the mapping key and its `name` is the base
name of that key, whether or not the stat call succeeded. -/
theorem scan_key_record_consistency (env : Env) (top : String)
    (m : Dict FileRecord) (h : scan_folder env top = Except.ok m)
    (p : String) (r : FileRecord) (hm : (p, r) ∈ m) :
    r.relpath = p ∧ r.name = baseName p := by
  unfold scan_folder at h
  by_cases hex : env.pathExists top = true
  · rw [if_pos hex, Except.ok.injEq] at h
    subst h
    exact scanWalk_record_inv env (env.walk top) [] (by simp) (p, r) hm
  · rw [if_neg hex] at h
    exact absurd h (by simp)

theorem scan_key_record_consistency_witness :
    (("top/a.txt", get_file_info env0 "top/a.txt") ∈ scanResult0) ∧
    ((get_file_info env0 "top/a.txt").relpath = "top/a.txt" ∧
      (get_file_info env0 "top/a.txt").name = baseName "top/a.txt") :=
  ⟨by decide,
    scan_key_record_consistency env0 "top" scanResult0 rfl "top/a.txt"
      (get_file_info env0 "top/a.txt") (by decide)⟩

/-- C4 counterexample: `save_baseline_for` is not atomic. `open(fp, "w")`
truncates the stored baseline before `json.dump` writes anything, so a
write failure at zero bytes leaves the slot holding the empty string —
the previously stored baseline `OLD` is destroyed, not left intact. -/
theorem save_not_atomic_counterexample :
    (([("deadbeef.json", "OLD")] : Store).lookup "deadbeef.json" = some "OLD") ∧
    (save_baseline_for (fun _ => "deadbeef") [("deadbeef.json", "OLD")]
        "folder" "NEWCONTENT" (some 0)).result = Except.error "write failed" ∧
    (save_baseline_for (fun _ => "deadbeef") [("deadbeef.json", "OLD")]
        "folder" "NEWCONTENT" (some 0)).store.lookup "deadbeef.json" = some "" ∧
    ("" : String) ≠ "OLD" :=
  ⟨by decide, rfl, by decide, by decide⟩

/-- C4 amended: the save is not atomic — it truncates the target file in
place, so a serialization failure after `b` characters surfaces the
write error to the caller but leaves the slot holding the partial prefix
of the *new* record; the previously stored baseline is lost. (On a
failure-free run the full record is in place.) -/
theorem save_failure_leaves_partial (hash : String → String) (st : Store)
    (path_str content : String) (b : ℕ) (hb : b < content.length) :
    (save_baseline_for hash st path_str content (some b)).result =
      Except.error "write failed" ∧
    (save_baseline_for hash st path_str content (some b)).store.lookup
      (hash path_str ++ ".json") = some (content.take b) ∧
    (save_baseline_for hash st path_str content none).store.lookup
      (hash path_str ++ ".json") = some content := by
  unfold save_baseline_for
  dsimp only
  rw [if_neg (by omega : ¬ content.length ≤ b)]
  exact ⟨rfl, lookup_dictInsert _ _ _, lookup_dictInsert _ _ _⟩

theorem save_failure_leaves_partial_witness :
    (3 < ("NEWCONTENT" : String).length) ∧
    ((save_baseline_for (fun _ => "deadbeef") [("deadbeef.json", "OLD")]
        "folder" "NEWCONTENT" (some 3)).result = Except.error "write failed" ∧
      (save_baseline_for (fun _ => "deadbeef") [("deadbeef.json", "OLD")]
        "folder" "NEWCONTENT" (some 3)).store.lookup "deadbeef.json" =
          some ("NEWCONTENT".take 3) ∧
      (save_baseline_for (fun _ => "deadbeef") [("deadbeef.json", "OLD")]
        "folder" "NEWCONTENT" none).store.lookup "deadbeef.json" =
          some "NEWCONTENT") :=
  ⟨by decide,
    save_failure_leaves_partial (fun _ => "deadbeef") [("deadbeef.json", "OLD")]
      "folder" "NEWCONTENT" 3 (by decide)⟩

/-! ### Size formatting against the spec's unit ladder -/

/-- The unit ladder of the spec; indices beyond the code's explicit list
are `PB`. -/
def unitName : ℕ → String
  | 0 => "B"
  | 1 => "KB"
  | 2 => "MB"
  | 3 => "GB"
  | 4 => "TB"
  | _ => "PB"

/-- Modelled from the spec's words: render a byte count scaled by unit
`k` — the exact value `n / 1024^k` with two decimal places and the unit
suffix. Used to compare the code's output against the spec's description
of it. -/
def specRender (n k : ℕ) : String := fmt2 n (1024 ^ k) ++ " " ++ unitName k

/-- C6 counterexample: for `n = 1024^6` no unit in {B, …, PB} gives a
scaled value `n / 1024^k` below 1024 (in exact arithmetic
`n / 1024^k < 1024 ↔ n < 1024^(k+1)`), so the spec's description covers
no rendering at all for this count — while the code happily falls
through to PB and prints a scaled value of 1024. -/
theorem human_readable_size_counterexample :
    human_readable_size (some (1024 ^ 6)) = some "1024.00 PB" ∧
    ¬ ∃ k < 6, 1024 ^ 6 < 1024 ^ (k + 1) ∧
      human_readable_size (some (1024 ^ 6)) = some (specRender (1024 ^ 6) k) := by
  constructor
  · decide
  · decide

/-- C6 amended: for every byte count below `2^53` — the range in which
the source's float arithmetic is exact, so the embedding renders the
same hundredths the program prints — the code renders the count scaled
by the *smallest* unit `k` in {B, KB, MB, GB, TB, PB} whose scaled value
is below 1024 (in exact arithmetic `n < 1024^(k+1)`), using 1024-based
scaling, two decimal places and the unit suffix. Beyond `2^53` the
program's first `int / 1024` division rounds to a 53-bit significand
and the printed hundredth can deviate from the exact value, and from
`1024^6` on the loop falls through to PB even though the scaled value is
at least 1024 (the counterexample above sits at the exactly-representable
`2^60`). -/
theorem human_readable_size_spec (n : ℕ) (hn : n < 2 ^ 53) :
    ∃ k < 6, n < 1024 ^ (k + 1) ∧ (∀ j, j < k → ¬ n < 1024 ^ (j + 1)) ∧
      human_readable_size (some n) = some (specRender n k) := by
  have hn' : n < 9007199254740992 := by norm_num at hn; omega
  have e : human_readable_size (some n) =
      some (sizeLoop n 1 ["B", "KB", "MB", "GB", "TB"]) := rfl
  simp only [sizeLoop, Nat.reduceMul] at e
  by_cases h0 : n < 1024
  · rw [if_pos h0] at e
    refine ⟨0, by norm_num, by norm_num; omega, fun j hj => by omega, ?_⟩
    rw [e]
    norm_num [specRender, unitName]
  · rw [if_neg h0] at e
    by_cases h1 : n < 1048576
    · rw [if_pos h1] at e
      refine ⟨1, by norm_num, by norm_num; omega, fun j hj => ?_, ?_⟩
      · interval_cases j <;> norm_num <;> omega
      · rw [e]
        norm_num [specRender, unitName]
    · rw [if_neg h1] at e
      by_cases h2 : n < 1073741824
      · rw [if_pos h2] at e
        refine ⟨2, by norm_num, by norm_num; omega, fun j hj => ?_, ?_⟩
        · interval_cases j <;> norm_num <;> omega
        · rw [e]
          norm_num [specRender, unitName]
      · rw [if_neg h2] at e
        by_cases h3 : n < 1099511627776
        · rw [if_pos h3] at e
          refine ⟨3, by norm_num, by norm_num; omega, fun j hj => ?_, ?_⟩
          · interval_cases j <;> norm_num <;> omega
          · rw [e]
            norm_num [specRender, unitName]
        · rw [if_neg h3] at e
          by_cases h4 : n < 1125899906842624
          · rw [if_pos h4] at e
            refine ⟨4, by norm_num, by norm_num; omega, fun j hj => ?_, ?_⟩
            · interval_cases j <;> norm_num <;> omega
            · rw [e]
              norm_num [specRender, unitName]
          · rw [if_neg h4] at e
            refine ⟨5, by norm_num, by norm_num; omega, fun j hj => ?_, ?_⟩
            · interval_cases j <;> norm_num <;> omega
            · rw [e]
              norm_num [specRender, unitName]
              rw [String.append_assoc]
              have hsp : (" " : String) ++ "PB" = " PB" := rfl
              rw [hsp]

theorem human_readable_size_spec_witness :
    ((5000 : ℕ) < 2 ^ 53) ∧
    (human_readable_size (some 5000) = some "4.88 KB") ∧
    ∃ k < 6, (5000 : ℕ) < 1024 ^ (k + 1) ∧ (∀ j, j < k → ¬ (5000 : ℕ) < 1024 ^ (j + 1)) ∧
      human_readable_size (some 5000) = some (specRender 5000 k) :=
  ⟨by decide, by decide, human_readable_size_spec 5000 (by decide)⟩

end FolderForensics
